import Mathlib

/-!
Shallow embedding of the `knownerror` Go package (`proxy.go`) and proofs
about it.

Modelling conventions:

* A Go `error` interface value is modelled by the inductive type `Err`.
  Every concrete error relevant to this package is either a plain error
  (such as the result of `errors.New` / `fmt.Errorf`, compared by pointer
  identity) or a `*Proxy`.  Pointer identity is modelled by tagging every
  allocation with a `Nat` id: two Go interface values are `==` exactly when
  they are the same allocation, which in the model is structural equality
  of `Err` values (distinct allocations carry distinct ids).
* The Go `nil` error is modelled by `Option.none`; a present error `e` by
  `some e`.
* Functions that allocate (`New`, `Newf`, `Wrap`, `WithCause`, `Extends`)
  take the address of the fresh allocation as an explicit `Nat` parameter;
  an operation that returns the receiver unchanged (Go: same pointer)
  returns the very same model value, ids included.
* `errors.Is` / `errors.As` from the Go standard library are modelled by
  `errorsIs` / `errorsAs` below, specialised to the error types at play:
  a plain error has no `Is`/`As`/`Unwrap` hook, a `*Proxy` has the hooks
  defined in `proxy.go`.
-/

/-- A Go error value as used by this package: either a plain error
(`errors.New` / `fmt.Errorf` result; `id` models its address, `msg` its
message), or a `*Proxy` with its three fields `base`, `cause` and
`extends` (field `exts` here, since `extends` is a Lean keyword). -/
inductive Err : Type where
  | basic (id : Nat) (msg : String) : Err
  | proxyErr (id : Nat) (base : Option Err) (cause : Option Err) (exts : List Err) : Err

mutual

/-- Go interface equality `==` on error values (pointer identity): same
constructor, same allocation id, same contents.  `beqO` and `beqL` extend
it to `Option Err` and `List Err`. -/
def beqE : Err → Err → Bool
  | .basic i m, .basic j n => i == j && m == n
  | .proxyErr i b c x, .proxyErr j b' c' x' =>
    i == j && beqO b b' && beqO c c' && beqL x x'
  | _, _ => false

/-- Interface equality on `Option Err` (nil-aware), see `beqE`. -/
def beqO : Option Err → Option Err → Bool
  | none, none => true
  | some a, some b => beqE a b
  | _, _ => false

/-- Interface equality on `List Err`, see `beqE`. -/
def beqL : List Err → List Err → Bool
  | [], [] => true
  | a :: as, b :: bs => beqE a b && beqL as bs
  | _, _ => false

end

mutual

/-- The Go standard library's `errors.Is(err, target)` for a non-nil
`target`, specialised to the error values of this package.  Following
`errors.Is`: first compare `err == target`; then, if `err` is a `*Proxy`,
run its `Is` hook (`proxy.go`, `Proxy.Is`: does any entry of `extends`
match `target`?); then follow `Unwrap()` — a `*Proxy` unwraps to its
`base` (stopping at nil), a plain error has no `Unwrap` method. -/
def errorsIs (err target : Err) : Bool :=
  if beqE err target then true
  else
    match err with
    | .basic _ _ => false
    | .proxyErr _ base _ exts =>
      if errorsIsAny exts target then true
      else
        match base with
        | none => false
        | some b => errorsIs b target

/-- The loop body of `Proxy.Is` (`proxy.go` lines 99-103): does
`errors.Is(ext, target)` hold for some `ext` in the list? -/
def errorsIsAny (exts : List Err) (target : Err) : Bool :=
  match exts with
  | [] => false
  | e :: es => errorsIs e target || errorsIsAny es target

end

mutual

/-- The Go standard library's `errors.As(err, target)`, specialised to the
error values of this package.  `ty` models the assignability test against
the target holder's type (in Go it depends only on the dynamic type of the
candidate error).  The result is the error written into the holder
(`some`), or `none` when the walk fails and the holder is left unset.
Following `errors.As`: first test `err` itself against the target type;
then, if `err` is a `*Proxy`, run its `As` hook (`proxy.go`, `Proxy.As`:
first entry of `extends` on which `errors.As` succeeds); then follow
`Unwrap()` into `base`. -/
def errorsAs (err : Err) (ty : Err → Bool) : Option Err :=
  if ty err then some err
  else
    match err with
    | .basic _ _ => none
    | .proxyErr _ base _ exts =>
      match errorsAsAny exts ty with
      | some r => some r
      | none =>
        match base with
        | none => none
        | some b => errorsAs b ty

/-- The loop body of `Proxy.As` (`proxy.go` lines 109-114): the value
written by the first `ext` in the list on which `errors.As` succeeds. -/
def errorsAsAny (exts : List Err) (ty : Err → Bool) : Option Err :=
  match exts with
  | [] => none
  | e :: es =>
    match errorsAs e ty with
    | some r => some r
    | none => errorsAsAny es ty

end

/-- `Error()` of an error value: a plain error returns its message; a
`*Proxy` returns `base.Error()` when `base` is non-nil and `""` otherwise
(`proxy.go`, `Proxy.Error`, lines 77-82). -/
def Err.errorMsg : Err → String
  | .basic _ m => m
  | .proxyErr _ base _ _ =>
    match base with
    | some b => b.errorMsg
    | none => ""

/-- The `Proxy` struct of `proxy.go` (lines 12-16).  `id` models the
pointer to this allocation; `exts` models the `extends` field (`extends`
is a Lean keyword). -/
structure Proxy where
  id : Nat
  base : Option Err
  cause : Option Err
  exts : List Err

/-- The `error` interface value holding a `*Proxy`. -/
def Proxy.toErr (p : Proxy) : Err := .proxyErr p.id p.base p.cause p.exts

/-- `New(text)` (`proxy.go` lines 19-21): a fresh `Proxy` whose base is a
fresh `errors.New(text)`.  `baseId` and `pxId` are the two fresh
allocation addresses. -/
def New (baseId pxId : Nat) (text : String) : Proxy :=
  ⟨pxId, some (.basic baseId text), none, []⟩

/-- `Newf(format, args...)` (`proxy.go` lines 24-26): a fresh `Proxy`
whose base is a fresh `fmt.Errorf(format, args...)`; `msg` stands for the
already-rendered message that `fmt.Errorf` produces. -/
def Newf (baseId pxId : Nat) (msg : String) : Proxy :=
  ⟨pxId, some (.basic baseId msg), none, []⟩

/-- `Wrap(err)` (`proxy.go` lines 29-34): nil in, nil out; otherwise a
fresh `Proxy` whose base is `err` verbatim. -/
def Wrap (pxId : Nat) (err : Option Err) : Option Proxy :=
  match err with
  | none => none
  | some e => some ⟨pxId, some e, none, []⟩

/-- `Proxy.WithCause(cause)` (`proxy.go` lines 42-52): nil cause returns
the receiver itself; otherwise a fresh copy with `cause` set and
`extends` = receiver followed by the receiver's prior `extends`. -/
def Proxy.WithCause (e : Proxy) (pxId : Nat) (cause : Option Err) : Proxy :=
  match cause with
  | none => e
  | some c => ⟨pxId, e.base, some c, e.toErr :: e.exts⟩

/-- `Proxy.Extends(errs...)` (`proxy.go` lines 59-74): drop nil
arguments; if none remain, return the receiver itself; otherwise a fresh
copy whose `extends` is the receiver's `extends` followed by the
remaining arguments. -/
def Proxy.Extends (e : Proxy) (pxId : Nat) (errs : List (Option Err)) : Proxy :=
  let nonNilErrs := errs.filterMap (fun x => x)
  if nonNilErrs.isEmpty then e
  else ⟨pxId, e.base, e.cause, e.exts ++ nonNilErrs⟩

/-- `Proxy.Error()` (`proxy.go` lines 77-82). -/
def Proxy.Error (e : Proxy) : String :=
  match e.base with
  | some b => b.errorMsg
  | none => ""

/-- `Proxy.Unwrap()` (`proxy.go` lines 85-87): the base error. -/
def Proxy.Unwrap (e : Proxy) : Option Err := e.base

/-- `Proxy.Cause()` (`proxy.go` lines 90-92): the attached root cause. -/
def Proxy.Cause (e : Proxy) : Option Err := e.cause

/-- `Proxy.Is(target)` (`proxy.go` lines 95-105): nil target never
matches; otherwise report whether `errors.Is(ext, target)` for some entry
`ext` of `extends`. -/
def Proxy.Is (e : Proxy) (target : Option Err) : Bool :=
  match target with
  | none => false
  | some t => errorsIsAny e.exts t

/-- `Proxy.As(target)` (`proxy.go` lines 108-115): the value written by
the first `extends` entry on which `errors.As` succeeds against the
target type `ty`; `none` models returning false with the holder unset. -/
def Proxy.As (e : Proxy) (ty : Err → Bool) : Option Err :=
  errorsAsAny e.exts ty

/-- Lower-case hex digit, as `strconv` uses for `\x` escapes. -/
def hexDigit (n : Nat) : Char :=
  if n < 10 then Char.ofNat (48 + n) else Char.ofNat (87 + n)

/-- Two lower-case hex digits of a byte. -/
def hexByte (n : Nat) : String :=
  String.singleton (hexDigit (n / 16 % 16)) ++ String.singleton (hexDigit (n % 16))

/-- One character of Go's `%q` rendering (`strconv.Quote`): escape `"`
and backslash, keep printable characters, use the named escapes for the
usual control characters and `\x` escapes for the remaining ASCII control
bytes.  Exact for ASCII; characters at or above `0x80` are modelled as
printable (Go consults its Unicode printability tables there). -/
def goQuoteChar (c : Char) : String :=
  if c = '"' then "\\\""
  else if c = '\\' then "\\\\"
  else if 0x20 ≤ c.toNat ∧ c.toNat ≤ 0x7e then String.singleton c
  else if c.toNat = 0x07 then "\\a"
  else if c.toNat = 0x08 then "\\b"
  else if c.toNat = 0x0c then "\\f"
  else if c.toNat = 0x0a then "\\n"
  else if c.toNat = 0x0d then "\\r"
  else if c.toNat = 0x09 then "\\t"
  else if c.toNat = 0x0b then "\\v"
  else if c.toNat < 0x20 ∨ c.toNat = 0x7f then "\\x" ++ hexByte c.toNat
  else String.singleton c

/-- Go's `%q` of a string: double quotes around the escaped characters. -/
def goQuote (s : String) : String :=
  "\"" ++ String.join (s.data.map goQuoteChar) ++ "\""

/-- `Proxy.Format(s, verb)` (`proxy.go` lines 121-134), as the string
written to `s`.  `plusFlag` models `s.Flag('+')`.  Verb `v` with the plus
flag and a non-nil cause writes `"<Error()> (cause: <cause>)"`, where the
cause is rendered by `%s` — its `Error()` string (for a `*Proxy` cause,
`fmt` calls its `Format` hook with verb `s`, which also writes
`Error()`); any other `v`, and `s`, write `Error()`; `q` writes the
quoted `Error()`; any other verb writes nothing. -/
def Proxy.Format (e : Proxy) (plusFlag : Bool) (verb : Char) : String :=
  if verb = 'v' then
    match e.cause with
    | some c => if plusFlag then e.Error ++ " (cause: " ++ c.errorMsg ++ ")" else e.Error
    | none => e.Error
  else if verb = 's' then e.Error
  else if verb = 'q' then goQuote e.Error
  else ""

mutual

/-- `beqE` is interface equality: it decides equality of `Err` values. -/
theorem beqE_iff : (a b : Err) → (beqE a b = true ↔ a = b)
  | .basic _ _, .basic _ _ => by simp [beqE]
  | .basic _ _, .proxyErr _ _ _ _ => by simp [beqE]
  | .proxyErr _ _ _ _, .basic _ _ => by simp [beqE]
  | .proxyErr _ b c x, .proxyErr _ b' c' x' => by
    simp [beqE, beqO_iff b b', beqO_iff c c', beqL_iff x x', and_assoc]

/-- `beqO` decides equality of `Option Err` values. -/
theorem beqO_iff : (a b : Option Err) → (beqO a b = true ↔ a = b)
  | none, none => by simp [beqO]
  | none, some _ => by simp [beqO]
  | some _, none => by simp [beqO]
  | some a, some b => by simp [beqO, beqE_iff a b]

/-- `beqL` decides equality of `List Err` values. -/
theorem beqL_iff : (a b : List Err) → (beqL a b = true ↔ a = b)
  | [], [] => by simp [beqL]
  | [], _ :: _ => by simp [beqL]
  | _ :: _, [] => by simp [beqL]
  | a :: as, b :: bs => by simp [beqL, beqE_iff a b, beqL_iff as bs]

end

/-- `errors.Is(e, e)` always holds: the first interface comparison of the
walk succeeds. -/
theorem errorsIs_self (e : Err) : errorsIs e e = true := by
  have h : beqE e e = true := (beqE_iff e e).mpr rfl
  rw [errorsIs.eq_def, h]
  simp

/-- The `Proxy.Is` loop is `List.any` of the recursive `errors.Is` walk. -/
theorem errorsIsAny_eq_any (l : List Err) (t : Err) :
    errorsIsAny l t = l.any (fun e => errorsIs e t) := by
  induction l with
  | nil => simp [errorsIsAny]
  | cons e es ih => simp [errorsIsAny, ih]

/-- The `Proxy.As` loop fails exactly when the walk fails on every entry. -/
theorem errorsAsAny_eq_none_iff (l : List Err) (ty : Err → Bool) :
    errorsAsAny l ty = none ↔ ∀ e ∈ l, errorsAs e ty = none := by
  induction l with
  | nil => simp [errorsAsAny]
  | cons e es ih =>
    cases h : errorsAs e ty <;> simp [errorsAsAny, h, ih]

/-- A successful `Proxy.As` loop splits the list at the first entry on
which the walk succeeds, and returns that walk's result. -/
theorem errorsAsAny_eq_some_split (l : List Err) (ty : Err → Bool) (v : Err)
    (h : errorsAsAny l ty = some v) :
    ∃ l₁ e l₂, l = l₁ ++ e :: l₂ ∧ (∀ e' ∈ l₁, errorsAs e' ty = none) ∧
      errorsAs e ty = some v := by
  induction l with
  | nil => simp [errorsAsAny] at h
  | cons e es ih =>
    cases he : errorsAs e ty with
    | some r =>
      refine ⟨[], e, es, rfl, by simp, ?_⟩
      rw [he]
      simp [errorsAsAny, he] at h
      rw [h]
    | none =>
      simp [errorsAsAny, he] at h
      obtain ⟨l₁, e', l₂, hl, hnone, hsome⟩ := ih h
      exact ⟨e :: l₁, e', l₂, by simp [hl], by simpa [he] using hnone, hsome⟩

/-- An error that directly satisfies the target type is what the walk
writes: the first step of `errors.As` matches it. -/
theorem errorsAs_direct (e : Err) (ty : Err → Bool) (h : ty e = true) :
    errorsAs e ty = some e := by
  cases e with
  | basic i m => simp [errorsAs, h]
  | proxyErr i b c x => cases b <;> simp [errorsAs, h]

/-- Claim C1: the `Is` hook returns false on a nil target; on a non-nil
target it returns true exactly when some entry of the `extends` list
identity-matches the target under the recursive `errors.Is` walk; and it
never consults the `base` field — replacing `base` by anything leaves the
hook's answer unchanged. -/
theorem proxy_is_hook_spec (p : Proxy) (t : Err) :
    p.Is none = false ∧
    (p.Is (some t) = true ↔ ∃ e ∈ p.exts, errorsIs e t = true) ∧
    (∀ b : Option Err, Proxy.Is ⟨p.id, b, p.cause, p.exts⟩ (some t) = p.Is (some t)) := by
  refine ⟨rfl, ?_, fun b => rfl⟩
  simp [Proxy.Is, errorsIsAny_eq_any, List.any_eq_true]

/-- Claim C2: `WithCause` with a non-nil cause returns a new instance
whose `Cause()` is that cause and whose `extends` list is the receiver
followed by the receiver's prior `extends`, with `base` unchanged; the
result sits at the fresh address, and is never the receiver (the receiver
itself is unchanged: the model is pure, the receiver's value is not
touched). -/
theorem withCause_spec (p : Proxy) (c : Err) (fresh : Nat) :
    (p.WithCause fresh (some c)).Cause = some c ∧
    (p.WithCause fresh (some c)).exts = p.toErr :: p.exts ∧
    (p.WithCause fresh (some c)).base = p.base ∧
    (p.WithCause fresh (some c)).id = fresh ∧
    p.WithCause fresh (some c) ≠ p := by
  refine ⟨rfl, rfl, rfl, rfl, fun h => ?_⟩
  have hl := congrArg (fun q : Proxy => q.exts.length) h
  simp [Proxy.WithCause] at hl

/-- Claim C3: attaching a non-nil cause preserves the original identity:
the `Is` hook of `x.WithCause(c)` answers true on target `x`, and
`Cause()` of the result is `c`. -/
theorem withCause_preserves_identity (p : Proxy) (c : Err) (fresh : Nat) :
    (p.WithCause fresh (some c)).Is (some p.toErr) = true ∧
    (p.WithCause fresh (some c)).Cause = some c := by
  refine ⟨?_, rfl⟩
  simp [Proxy.WithCause, Proxy.Is, errorsIsAny_eq_any, errorsIs_self]

/-- Claim C4: `Extends` drops nil arguments; with nothing left it returns
the receiver itself (same allocation), otherwise a new instance at the
fresh address whose `extends` is the prior list followed by the non-nil
arguments in order, duplicates kept; and a nil argument at the front is
simply skipped. -/
theorem extends_spec (p : Proxy) (fresh : Nat) (errs : List (Option Err)) :
    p.Extends fresh errs =
      (if (errs.filterMap (fun x => x)).isEmpty then p
       else ⟨fresh, p.base, p.cause, p.exts ++ errs.filterMap (fun x => x)⟩) ∧
    p.Extends fresh (none :: errs) = p.Extends fresh errs := by
  exact ⟨rfl, by simp [Proxy.Extends, List.filterMap_cons]⟩

/-- Claim C5: nil is uniformly a no-op: `Wrap nil` is nil,
`WithCause nil` returns the receiver itself (hence is idempotent under
repetition), and `Extends` with no arguments or only nil arguments
returns the receiver itself. -/
theorem nil_noop_spec (pw pc pe : Nat) (p : Proxy) (errs : List (Option Err)) :
    Wrap pw none = none ∧
    p.WithCause pc none = p ∧
    (p.WithCause pc none).WithCause pc none = p ∧
    p.Extends pe [] = p ∧
    (errs.all (fun e => e.isNone) = true → p.Extends pe errs = p) := by
  refine ⟨rfl, rfl, rfl, rfl, fun h => ?_⟩
  have hnil : errs.filterMap (fun x => x) = [] := by
    rw [List.filterMap_eq_nil_iff]
    intro a ha
    have := List.all_eq_true.mp h a ha
    cases a <;> simp_all
  simp [Proxy.Extends, hnil]

/-- Claim C6 counterexample: a proxy whose single `extends` entry is
itself a proxy around a plain error.  Against the target type "plain
error", the hook succeeds (returns a written value) although the entry
itself does not satisfy the target type, and the value written is the
inner plain error found by the recursive walk, not the entry. -/
theorem proxy_as_writes_inner_value :
    Proxy.As ⟨0, none, none, [Err.proxyErr 1 none none [Err.basic 2 "boom"]]⟩
        (fun e => match e with | .basic _ _ => true | .proxyErr _ _ _ _ => false)
      = some (Err.basic 2 "boom") ∧
    (fun e : Err => match e with | .basic _ _ => true | .proxyErr _ _ _ _ => false)
        (Err.proxyErr 1 none none [Err.basic 2 "boom"]) = false ∧
    some (Err.basic 2 "boom") ≠ some (Err.proxyErr 1 none none [Err.basic 2 "boom"]) := by
  refine ⟨rfl, rfl, ?_⟩
  simp

/-- Claim C6 as amended: the `As` hook runs the recursive `errors.As`
walk over the `extends` entries in order; it fails (false, holder unset)
exactly when the walk fails on every entry, and a success comes from the
first entry on which the walk succeeds, writing the error that walk finds
within that entry's chain — the entry itself whenever the entry directly
satisfies the target type. -/
theorem proxy_as_hook_spec (p : Proxy) (ty : Err → Bool) :
    (p.As ty = none ↔ ∀ e ∈ p.exts, errorsAs e ty = none) ∧
    (∀ v, p.As ty = some v →
      ∃ l₁ e l₂, p.exts = l₁ ++ e :: l₂ ∧ (∀ e' ∈ l₁, errorsAs e' ty = none) ∧
        errorsAs e ty = some v) ∧
    (∀ e, ty e = true → errorsAs e ty = some e) :=
  ⟨errorsAsAny_eq_none_iff p.exts ty,
   fun v h => errorsAsAny_eq_some_split p.exts ty v h,
   fun e h => errorsAs_direct e ty h⟩

/-- Claim C7: `Wrap` of a non-nil error builds a proxy whose base is that
error verbatim, so its `Unwrap()` is the error; and `Unwrap()` of every
proxy — in particular those built by `New`, `Newf` and `Wrap` — is its
base error. -/
theorem wrap_unwrap_spec (e : Err) (pw bid pid : Nat) (t m : String) :
    Wrap pw (some e) = some ⟨pw, some e, none, []⟩ ∧
    (∀ q : Proxy, Wrap pw (some e) = some q → q.Unwrap = some e) ∧
    (New bid pid t).Unwrap = some (Err.basic bid t) ∧
    (Newf bid pid m).Unwrap = some (Err.basic bid m) ∧
    (∀ q : Proxy, q.Unwrap = q.base) := by
  refine ⟨rfl, ?_, rfl, rfl, fun q => rfl⟩
  intro q h
  simp only [Wrap, Option.some.injEq] at h
  rw [← h]
  rfl

/-- Claim C8: verb `v` without the plus flag and verb `s` (either flag)
write exactly the message; verb `v` with the plus flag writes
`"<message> (cause: <cause's default string form>)"` when a cause is
present — the cause rendered by its `Error()` string only, never by
expanding its own cause — and just the message when no cause is present;
verb `q` writes the message as a quoted string literal; every other verb
writes nothing. -/
theorem format_spec (p : Proxy) (fl : Bool) :
    p.Format false 'v' = p.Error ∧
    p.Format fl 's' = p.Error ∧
    (∀ c, p.cause = some c →
      p.Format true 'v' = p.Error ++ " (cause: " ++ c.errorMsg ++ ")") ∧
    (p.cause = none → p.Format true 'v' = p.Error) ∧
    p.Format fl 'q' = goQuote p.Error ∧
    (∀ v : Char, v ≠ 'v' → v ≠ 's' → v ≠ 'q' → p.Format fl v = "") := by
  refine ⟨?_, by simp [Proxy.Format], ?_, ?_, by simp [Proxy.Format], ?_⟩
  · cases hc : p.cause <;> simp [Proxy.Format, hc]
  · intro c hc
    simp [Proxy.Format, hc]
  · intro hc
    simp [Proxy.Format, hc]
  · intro v hv hs hq
    simp [Proxy.Format, hv, hs, hq]

/-- Claim C9: `Extends` accumulates: both the single call with two
errors and two chained calls produce a proxy whose `Is` hook answers true
on each of the two targets. -/
theorem extends_accumulates (p : Proxy) (e₁ e₂ : Err) (f₁ f₂ f₃ : Nat) :
    (p.Extends f₁ [some e₁, some e₂]).Is (some e₁) = true ∧
    (p.Extends f₁ [some e₁, some e₂]).Is (some e₂) = true ∧
    ((p.Extends f₂ [some e₁]).Extends f₃ [some e₂]).Is (some e₁) = true ∧
    ((p.Extends f₂ [some e₁]).Extends f₃ [some e₂]).Is (some e₂) = true := by
  simp [Proxy.Extends, Proxy.Is, errorsIsAny_eq_any, errorsIs_self]

/-- Claim C10: when no entry of the new `extends` list (the receiver and
its prior entries) matches the cause under the `errors.Is` walk, the
proxy returned by `WithCause` does not identity-match its cause: its `Is`
hook answers false on the cause, while the cause stays reachable through
`Cause()` and `Unwrap()` still returns the unchanged base. -/
theorem withCause_does_not_match_cause (p : Proxy) (c : Err) (fresh : Nat)
    (h : (p.toErr :: p.exts).all (fun e => !errorsIs e c) = true) :
    (p.WithCause fresh (some c)).Is (some c) = false ∧
    (p.WithCause fresh (some c)).Unwrap = p.base ∧
    (p.WithCause fresh (some c)).Cause = some c := by
  refine ⟨?_, rfl, rfl⟩
  have hall := List.all_eq_true.mp h
  simp only [Proxy.WithCause, Proxy.Is, errorsIsAny_eq_any]
  rw [List.any_eq_false]
  intro e he
  have := hall e he
  simpa using this

/-- Claim C10 witness: `New("user not found")` with cause a distinct
plain error `"db down"`: the resulting proxy's `Is` hook rejects the
cause, `Unwrap()` is the unchanged base and `Cause()` is the cause. -/
theorem withCause_does_not_match_cause_witness :
    ((New 0 1 "user not found").WithCause 3 (some (Err.basic 2 "db down"))).Is
        (some (Err.basic 2 "db down")) = false ∧
    ((New 0 1 "user not found").WithCause 3 (some (Err.basic 2 "db down"))).Unwrap
      = (New 0 1 "user not found").base ∧
    ((New 0 1 "user not found").WithCause 3 (some (Err.basic 2 "db down"))).Cause
      = some (Err.basic 2 "db down") :=
  withCause_does_not_match_cause (New 0 1 "user not found") (Err.basic 2 "db down") 3
    (by decide)
